import Mathlib

/-!
Shallow embedding of the Alif ML embedded evaluation kit's inference-runner
core, consisting of three source files:

* `source/hal/source/platform/alif/source/inference_timing.c` — GPIO-based
  timing signals (pre/post inference pins, diagnostic cycle routine);
* `source/use_case/inference_runner/src/MainLoop.cc` — the interactive main
  loop with optional UART bulk input loading.

The external GPIO driver and the UART transport appear as oracles: a
`GpioDriver` records the return code of each driver call per pin, and a
transport function `Nat → Int` records the return code of the k-th
`uart_receive_bulk` chunk request.  Hardware and console effects are
modelled as explicit event traces.
-/

namespace AlifKit

/-- Observable effects of the timing module (`inference_timing.c`):
GPIO writes, blocking waits, and console messages. -/
inductive TEvent where
  /-- `gpio0->SetValue(pin, HIGH/LOW)`; `high = true` means
  `GPIO_PIN_OUTPUT_STATE_HIGH`. -/
  | setValue (pin : Nat) (high : Bool)
  /-- `sleep_or_wait_msec(ms)`. -/
  | waitMsec (ms : Nat)
  /-- `printf("Special GPIO pins not initialized!\n")`. -/
  | logNotInitialized
  /-- `printf("Setting P0_%d HIGH for 1s\n", pin)`. -/
  | logSettingHigh (pin : Nat)
  /-- the `printf` preceding a pre/post SetValue in
  `inference_timing_pre_start` etc. -/
  | logTimingMsg (pin : Nat) (high : Bool)
  deriving DecidableEq, Repr

/-- The mutable module state of `inference_timing.c`: the two `static bool`
flags and the logical level of each GPIO0 pin (`true` = High). -/
structure TimingState where
  initialized : Bool
  special_initialized : Bool
  pinLevel : Nat → Bool

/-- `ARM_DRIVER_OK` (CMSIS driver success code). -/
def ARM_DRIVER_OK : Int := 0

/-- `#define PRE_INFERENCE_GPIO_PIN 0` (inference_timing.c line 37). -/
def PRE_INFERENCE_GPIO_PIN : Nat := 0
/-- `#define POST_INFERENCE_GPIO_PIN 1` (inference_timing.c line 39). -/
def POST_INFERENCE_GPIO_PIN : Nat := 1
/-- `#define SPECIAL_PIN_0 0` (inference_timing.c line 43). -/
def SPECIAL_PIN_0 : Nat := 0
/-- `#define SPECIAL_PIN_1 1` (inference_timing.c line 44). -/
def SPECIAL_PIN_1 : Nat := 1
/-- `#define SPECIAL_PIN_2 2` (inference_timing.c line 45). -/
def SPECIAL_PIN_2 : Nat := 2
/-- `#define SPECIAL_PIN_4 4` (inference_timing.c line 46). -/
def SPECIAL_PIN_4 : Nat := 4

/-- Oracle for the external `ARM_DRIVER_GPIO` driver: the return code each
driver entry point yields for a given pin during initialization. -/
structure GpioDriver where
  InitializeRet : Nat → Int
  PowerControlRet : Nat → Int
  SetDirectionRet : Nat → Int
  SetValueRet : Nat → Int

/-- Record a `SetValue` driver call: the pin's logical level is updated at
the point the driver is invoked. -/
def setPin (s : TimingState) (pin : Nat) (high : Bool) : TimingState :=
  { s with pinLevel := fun q => if q = pin then high else s.pinLevel q }

/-- `init_pin_output` (inference_timing.c lines 56-70): Initialize, then
PowerControl, then SetDirection, then SetValue LOW; the first non-OK return
code aborts the sequence and is returned. -/
def init_pin_output (driver : GpioDriver) (pin : Nat) (s : TimingState) :
    Int × TimingState :=
  let r1 := driver.InitializeRet pin
  if r1 ≠ ARM_DRIVER_OK then (r1, s)
  else
    let r2 := driver.PowerControlRet pin
    if r2 ≠ ARM_DRIVER_OK then (r2, s)
    else
      let r3 := driver.SetDirectionRet pin
      if r3 ≠ ARM_DRIVER_OK then (r3, s)
      else (driver.SetValueRet pin, setPin s pin false)

/-- `inference_timing_init` (inference_timing.c lines 72-79): configure the
pre- and post-inference pins; return -1 / -2 on the first failing pin, and
set `initialized` only when both succeed. -/
def inference_timing_init (driver : GpioDriver) (s : TimingState) :
    Int × TimingState :=
  let p := init_pin_output driver PRE_INFERENCE_GPIO_PIN s
  if p.1 ≠ ARM_DRIVER_OK then (-1, p.2)
  else
    let q := init_pin_output driver POST_INFERENCE_GPIO_PIN p.2
    if q.1 ≠ ARM_DRIVER_OK then (-2, q.2)
    else (0, { q.2 with initialized := true })

/-- `inference_timing_special_init` (inference_timing.c lines 81-90):
configure the four diagnostic pins 0, 1, 2, 4; return -1..-4 on the first
failing pin, and set `special_initialized` only when all four succeed. -/
def inference_timing_special_init (driver : GpioDriver) (s : TimingState) :
    Int × TimingState :=
  let p0 := init_pin_output driver SPECIAL_PIN_0 s
  if p0.1 ≠ ARM_DRIVER_OK then (-1, p0.2)
  else
    let p1 := init_pin_output driver SPECIAL_PIN_1 p0.2
    if p1.1 ≠ ARM_DRIVER_OK then (-2, p1.2)
    else
      let p2 := init_pin_output driver SPECIAL_PIN_2 p1.2
      if p2.1 ≠ ARM_DRIVER_OK then (-3, p2.2)
      else
        let p4 := init_pin_output driver SPECIAL_PIN_4 p2.2
        if p4.1 ≠ ARM_DRIVER_OK then (-4, p4.2)
        else (0, { p4.2 with special_initialized := true })

/-- `inference_timing_pre_start` (inference_timing.c lines 114-120): if
`initialized`, log and drive the pre-inference pin High; otherwise no-op. -/
def inference_timing_pre_start (s : TimingState) : TimingState × List TEvent :=
  if s.initialized then
    (setPin s PRE_INFERENCE_GPIO_PIN true,
     [TEvent.logTimingMsg PRE_INFERENCE_GPIO_PIN true,
      TEvent.setValue PRE_INFERENCE_GPIO_PIN true])
  else (s, [])

/-- `inference_timing_pre_end` (inference_timing.c lines 122-128). -/
def inference_timing_pre_end (s : TimingState) : TimingState × List TEvent :=
  if s.initialized then
    (setPin s PRE_INFERENCE_GPIO_PIN false,
     [TEvent.logTimingMsg PRE_INFERENCE_GPIO_PIN false,
      TEvent.setValue PRE_INFERENCE_GPIO_PIN false])
  else (s, [])

/-- `inference_timing_post_start` (inference_timing.c lines 130-136). -/
def inference_timing_post_start (s : TimingState) : TimingState × List TEvent :=
  if s.initialized then
    (setPin s POST_INFERENCE_GPIO_PIN true,
     [TEvent.logTimingMsg POST_INFERENCE_GPIO_PIN true,
      TEvent.setValue POST_INFERENCE_GPIO_PIN true])
  else (s, [])

/-- `inference_timing_post_end` (inference_timing.c lines 138-144). -/
def inference_timing_post_end (s : TimingState) : TimingState × List TEvent :=
  if s.initialized then
    (setPin s POST_INFERENCE_GPIO_PIN false,
     [TEvent.logTimingMsg POST_INFERENCE_GPIO_PIN false,
      TEvent.setValue POST_INFERENCE_GPIO_PIN false])
  else (s, [])

/-- The pin array `{SPECIAL_PIN_0, SPECIAL_PIN_1, SPECIAL_PIN_2,
SPECIAL_PIN_4}` of `inference_timing_cycle_routine` (line 99). -/
def specialPins : List Nat :=
  [SPECIAL_PIN_0, SPECIAL_PIN_1, SPECIAL_PIN_2, SPECIAL_PIN_4]

/-- The first `for` loop of `inference_timing_cycle_routine` (lines
101-106): for each pin, log, drive High, wait 1000 ms, drive Low. -/
def cyclePins : List Nat → TimingState → TimingState × List TEvent
  | [], s => (s, [])
  | p :: rest, s =>
    let s1 := setPin s p true
    let s2 := setPin s1 p false
    let r := cyclePins rest s2
    (r.1, TEvent.logSettingHigh p :: TEvent.setValue p true ::
          TEvent.waitMsec 1000 :: TEvent.setValue p false :: r.2)

/-- The second `for` loop of `inference_timing_cycle_routine` (lines
109-111): drive every pin Low unconditionally. -/
def sweepLow : List Nat → TimingState → TimingState × List TEvent
  | [], s => (s, [])
  | p :: rest, s =>
    let r := sweepLow rest (setPin s p false)
    (r.1, TEvent.setValue p false :: r.2)

/-- `inference_timing_cycle_routine` (inference_timing.c lines 92-112): if
`special_initialized` is unset, print the warning and do nothing else;
otherwise cycle each of the four diagnostic pins High for 1 s, then sweep
all four Low. -/
def inference_timing_cycle_routine (s : TimingState) :
    TimingState × List TEvent :=
  if ¬ s.special_initialized then (s, [TEvent.logNotInitialized])
  else
    let c := cyclePins specialPins s
    let w := sweepLow specialPins c.1
    (w.1, c.2 ++ w.2)

/-- One of the four externally callable assert/deassert entry points of the
timing module. -/
inductive TimingOp where
  | preStart
  | preEnd
  | postStart
  | postEnd
  deriving DecidableEq, Repr

/-- Run one timing entry point. -/
def runTimingOp (op : TimingOp) (s : TimingState) : TimingState × List TEvent :=
  match op with
  | .preStart => inference_timing_pre_start s
  | .preEnd => inference_timing_pre_end s
  | .postStart => inference_timing_post_start s
  | .postEnd => inference_timing_post_end s

/-- Run a whole sequence of assert/deassert calls, accumulating the trace. -/
def runTimingOps : List TimingOp → TimingState → TimingState × List TEvent
  | [], s => (s, [])
  | op :: ops, s =>
    let r := runTimingOp op s
    let r2 := runTimingOps ops r.1
    (r2.1, r.2 ++ r2.2)

/-- Error taxonomy printed by `LoadInputFromUART` (MainLoop.cc lines
138-145) for a non-zero `uart_receive_bulk` return code. -/
inductive UartErrorKind where
  | Overflow
  | Timeout
  | BreakErr
  | Framing
  | Parity
  | Unknown
  deriving DecidableEq, Repr

/-- The `switch (result)` of MainLoop.cc lines 138-145: -2 Overflow,
-3 Timeout, -4 Break, -5 Framing, -6 Parity, anything else Unknown. -/
def classifyUartError (result : Int) : UartErrorKind :=
  if result = -2 then .Overflow
  else if result = -3 then .Timeout
  else if result = -4 then .BreakErr
  else if result = -5 then .Framing
  else if result = -6 then .Parity
  else .Unknown

/-- `const uint32_t CHUNK_SIZE = 4096` (MainLoop.cc line 125). -/
def CHUNK_SIZE : Nat := 4096

/-- Outcome of the chunked `while (bytesRemaining > 0)` fill loop of
`LoadInputFromUART` (MainLoop.cc lines 127-157) for one tensor. -/
structure FillResult where
  /-- sizes of the `uart_receive_bulk` chunk requests, in issue order
  (including a final failing request, if any). -/
  requests : List Nat
  /-- `totalRead` when the loop ends: the bytes received from completed
  chunks, which is also the count reported on error. -/
  totalRead : Nat
  /-- the `totalRead` values printed by the progress line after each
  successful chunk. -/
  progress : List Nat
  /-- `some (result, kind)` when a chunk request returned non-zero
  `result`, classified as `kind`; `none` on clean completion. -/
  error : Option (Int × UartErrorKind)
  deriving DecidableEq, Repr

/-- The chunk loop of `LoadInputFromUART` (MainLoop.cc lines 127-157).
`transport k` is the return code of the k-th `uart_receive_bulk` call of
the whole load (the UART transport oracle); `reqIdx` is the index of the
next request.  Each iteration requests
`min(CHUNK_SIZE, bytesRemaining)` bytes; a non-zero return aborts with
the error classified, otherwise `totalRead` advances by the chunk size. -/
def fillLoop (transport : Nat → Int) (bytesRemaining totalRead reqIdx : Nat) :
    FillResult :=
  if h : bytesRemaining = 0 then
    { requests := [], totalRead := totalRead, progress := [], error := none }
  else
    let chunkSize := if bytesRemaining > CHUNK_SIZE then CHUNK_SIZE else bytesRemaining
    let result := transport reqIdx
    if result ≠ 0 then
      { requests := [chunkSize], totalRead := totalRead, progress := [],
        error := some (result, classifyUartError result) }
    else
      let rest := fillLoop transport (bytesRemaining - chunkSize)
        (totalRead + chunkSize) (reqIdx + 1)
      { requests := chunkSize :: rest.requests, totalRead := rest.totalRead,
        progress := (totalRead + chunkSize) :: rest.progress,
        error := rest.error }
termination_by bytesRemaining
decreasing_by
  simp only [CHUNK_SIZE]
  split <;> omega

/-- One tensor's fill, starting from chunk-request index `reqBase`:
`bytesRemaining = n`, `totalRead = 0`. -/
def fillFrom (transport : Nat → Int) (reqBase n : Nat) : FillResult :=
  fillLoop transport n 0 reqBase

/-- The `fill(destination, totalLength)` operation for a single tensor of
`n` bytes, with the transport oracle starting at request 0. -/
def fill (transport : Nat → Int) (n : Nat) : FillResult :=
  fillFrom transport 0 n

/-- What the loop reads of a TFLite input tensor handle in
`LoadInputFromUART`: whether `model.GetInputTensor` returned a non-null
handle, and the tensor's `bytes`. -/
structure TensorInfo where
  available : Bool
  bytes : Nat
  deriving DecidableEq, Repr

/-- Console-observable outcome of `LoadInputFromUART` per tensor. -/
inductive LoadEvent where
  /-- `printf_err("Invalid input tensor at index %zu\n", i)` followed by
  `continue` (MainLoop.cc lines 98-101). -/
  | invalidTensor (idx : Nat)
  /-- `info("Input tensor %zu loaded successfully!\n", i)` (line 159). -/
  | tensorLoaded (idx : Nat)
  /-- the error report of lines 133-146: code, classification, and the
  `Received %u / %u bytes before error` context, followed by `return`. -/
  | uartError (idx : Nat) (code : Int) (kind : UartErrorKind)
      (received total : Nat)
  /-- `info("\n=== All input tensors loaded ===\n\n")` (line 162). -/
  | allLoaded
  deriving DecidableEq, Repr

/-- The `for (inputIndex ...)` body of `LoadInputFromUART` (MainLoop.cc
lines 95-162), over the remaining tensors: an unavailable or zero-byte
tensor is reported and skipped (`continue`); a transport error during a
tensor's fill reports the classified error and returns from the whole
load (no trailing banner, no later tensors); otherwise the tensor is
filled and the loop advances. -/
def loadTensors (transport : Nat → Int) :
    List TensorInfo → Nat → Nat → List LoadEvent
  | [], _, _ => [LoadEvent.allLoaded]
  | t :: rest, idx, reqBase =>
    if ¬ t.available ∨ t.bytes = 0 then
      LoadEvent.invalidTensor idx :: loadTensors transport rest (idx + 1) reqBase
    else
      let r := fillFrom transport reqBase t.bytes
      match r.error with
      | some (code, kind) =>
        [LoadEvent.uartError idx code kind r.totalRead t.bytes]
      | none =>
        LoadEvent.tensorLoaded idx ::
          loadTensors transport rest (idx + 1) (reqBase + r.requests.length)

/-- `LoadInputFromUART(model)` (MainLoop.cc lines 88-163): the observable
event trace of the whole multi-tensor load. -/
def LoadInputFromUART (transport : Nat → Int) (tensors : List TensorInfo) :
    List LoadEvent :=
  loadTensors transport tensors 0 0

/-- The value `LoadInputFromUART` returns to its caller: the C function is
declared `void`, so the caller receives no information. -/
def LoadInputFromUARTReturn (_transport : Nat → Int)
    (_tensors : List TensorInfo) : Unit := ()

/-- `WaitForInputChoice` (MainLoop.cc lines 64-82) over a stream of UART
characters: repeatedly read one character; 'y'/'Y' returns `true`,
'n'/'N' returns `false`, anything else is discarded.  The result also
carries the number of characters consumed; `none` means the stream was
exhausted without a valid character (the real loop would block forever). -/
def WaitForInputChoice : List Char → Option (Bool × Nat)
  | [] => none
  | c :: rest =>
    if c = 'y' ∨ c = 'Y' then some (true, 1)
    else if c = 'n' ∨ c = 'N' then some (false, 1)
    else
      match WaitForInputChoice rest with
      | none => none
      | some (b, k) => some (b, k + 1)

/-- Observable steps of one iteration of the `while (true)` body of
`MainLoop` (MainLoop.cc lines 197-236). -/
inductive LoopEvent where
  /-- `LoadInputFromUART(model)` was invoked (line 208). -/
  | loadFromUart
  /-- the `info("Using default/random input data ...")` branch (line 210). -/
  | useDefaultInput
  /-- `inference_timing_pre_start()` (line 217). -/
  | preStartCall
  /-- `inference_timing_pre_end()` (line 219). -/
  | preEndCall
  /-- `inference_timing_post_start()` (line 225). -/
  | postStartCall
  /-- `inference_timing_post_end()` (line 227). -/
  | postEndCall
  /-- `sleep_or_wait_msec(ms)` (lines 218 and 226). -/
  | waitMsec (ms : Nat)
  /-- `RunInferenceHandler(caseContext)` returned `ok` (line 222). -/
  | runInference (ok : Bool)
  /-- `info("--- Inference completed successfully ---")` (line 230). -/
  | reportSuccess
  /-- `printf_err("--- Inference failed ---")` (line 232). -/
  | reportFailure
  deriving DecidableEq, Repr

/-- One iteration of the `MainLoop` body (MainLoop.cc lines 197-235), as
the sequence of operations it performs: optional UART load, pre-signal
assert / 50 ms hold / deassert, the inference call, post-signal assert /
50 ms hold / deassert, then the success/failure report. -/
def mainLoopIteration (loadFromUart inferenceSuccess : Bool) : List LoopEvent :=
  (if loadFromUart then [LoopEvent.loadFromUart]
   else [LoopEvent.useDefaultInput]) ++
  [LoopEvent.preStartCall, LoopEvent.waitMsec 50, LoopEvent.preEndCall,
   LoopEvent.runInference inferenceSuccess,
   LoopEvent.postStartCall, LoopEvent.waitMsec 50, LoopEvent.postEndCall,
   if inferenceSuccess then LoopEvent.reportSuccess else LoopEvent.reportFailure]

/-- Modelled from the spec for comparison with the code's chunk loop: the
sequence of chunk request sizes prescribed for an error-free fill of `n`
bytes, each request being `min(4096, bytes remaining)`. -/
def specChunkSizes (n : Nat) : List Nat :=
  if n = 0 then []
  else min CHUNK_SIZE n :: specChunkSizes (n - min CHUNK_SIZE n)
termination_by n
decreasing_by
  simp only [CHUNK_SIZE]
  omega

/-- Cumulative progress values: the `totalRead` totals reached after each
chunk of the given sizes, starting from `acc` bytes already transferred. -/
def cumFrom (acc : Nat) : List Nat → List Nat
  | [] => []
  | c :: cs => (acc + c) :: cumFrom (acc + c) cs

lemma chunk_formula (n : Nat) :
    (if n > CHUNK_SIZE then CHUNK_SIZE else n) = min CHUNK_SIZE n := by
  split <;> omega

lemma fillLoop_ok (transport : Nat → Int) (hok : ∀ i, transport i = 0) :
    ∀ remaining acc idx, fillLoop transport remaining acc idx =
      { requests := specChunkSizes remaining,
        totalRead := acc + remaining,
        progress := cumFrom acc (specChunkSizes remaining),
        error := none } := by
  intro remaining
  induction remaining using Nat.strong_induction_on with
  | _ remaining ih =>
    intro acc idx
    rw [fillLoop, specChunkSizes]
    by_cases h0 : remaining = 0
    · simp [h0, cumFrom]
    · have hch := chunk_formula remaining
      have hpos : 0 < min CHUNK_SIZE remaining := by
        simp only [CHUNK_SIZE]; omega
      rw [if_neg h0] at *
      simp only [dif_neg h0, hch, hok idx, ne_eq, not_true_eq_false, if_false,
        if_neg (by simp : ¬ ((0 : Int) ≠ 0))]
      rw [ih (remaining - min CHUNK_SIZE remaining) (by omega) (acc + min CHUNK_SIZE remaining) (idx + 1)]
      simp [cumFrom]
      omega

lemma specChunkSizes_length (n : Nat) :
    (specChunkSizes n).length = (n + CHUNK_SIZE - 1) / CHUNK_SIZE := by
  induction n using Nat.strong_induction_on with
  | _ n ih =>
    rw [specChunkSizes]
    by_cases h0 : n = 0
    · simp [h0, CHUNK_SIZE]
    · rw [if_neg h0]
      simp only [List.length_cons]
      rw [ih (n - min CHUNK_SIZE n) (by simp only [CHUNK_SIZE]; omega)]
      simp only [CHUNK_SIZE] at *
      omega

set_option maxRecDepth 4000

/-- C3: for every error-free fill of a tensor of N > 0 bytes with chunk
size 4096, exactly ceil(N / 4096) chunk requests are issued, each request
being for min(4096, bytes remaining), bytesTransferred increases by
exactly that chunk's size after each request (the printed progress values
are the cumulative sums of the request sizes), and the final
bytesTransferred equals N; in particular fill(buf, 10000) issues exactly
3 requests of 4096, 4096 and 1808 bytes ending at 10000. -/
theorem fill_error_free_chunking (transport : Nat → Int) (N : Nat)
    (hN : 0 < N) (hok : ∀ i, transport i = 0) :
    (fill transport N).error = none ∧
    (fill transport N).totalRead = N ∧
    (fill transport N).requests = specChunkSizes N ∧
    (fill transport N).requests.length = (N + CHUNK_SIZE - 1) / CHUNK_SIZE ∧
    1 ≤ (fill transport N).requests.length ∧
    (fill transport N).progress = cumFrom 0 (fill transport N).requests ∧
    fill transport 10000 =
      { requests := [4096, 4096, 1808], totalRead := 10000,
        progress := [4096, 8192, 10000], error := none } := by
  have h := fillLoop_ok transport hok
  unfold fill fillFrom
  rw [h N 0 0, h 10000 0 0]
  refine ⟨rfl, by simp, rfl, specChunkSizes_length N, ?_, rfl, ?_⟩
  · rw [specChunkSizes_length N]
    simp only [CHUNK_SIZE]
    omega
  · simp [specChunkSizes, CHUNK_SIZE, cumFrom]

/-- Witness for C3: the error-free fill of 10000 bytes over an all-OK
transport. -/
theorem fill_error_free_chunking_witness :
    fill (fun _ => 0) 10000 =
      { requests := [4096, 4096, 1808], totalRead := 10000,
        progress := [4096, 8192, 10000], error := none } :=
  (fill_error_free_chunking (fun _ => 0) 10000 (by norm_num)
    (fun _ => rfl)).2.2.2.2.2.2

lemma fillLoop_err (transport : Nat → Int) :
    ∀ j remaining acc idx, j * CHUNK_SIZE < remaining →
    (∀ i, i < j → transport (idx + i) = 0) →
    transport (idx + j) ≠ 0 →
    fillLoop transport remaining acc idx =
      { requests := List.replicate j CHUNK_SIZE ++
          [if remaining - j * CHUNK_SIZE > CHUNK_SIZE then CHUNK_SIZE
           else remaining - j * CHUNK_SIZE],
        totalRead := acc + j * CHUNK_SIZE,
        progress := cumFrom acc (List.replicate j CHUNK_SIZE),
        error := some (transport (idx + j),
          classifyUartError (transport (idx + j))) } := by
  intro j
  induction j with
  | zero =>
    intro remaining acc idx hrem _ herr
    rw [fillLoop, dif_neg (by omega : ¬ remaining = 0)]
    simp only [Nat.add_zero] at herr
    simp [herr, cumFrom]
  | succ j ih =>
    intro remaining acc idx hrem hpre herr
    have hC : remaining > CHUNK_SIZE := by
      simp only [CHUNK_SIZE] at hrem ⊢
      omega
    have h0 : transport idx = 0 := by
      simpa using hpre 0 (Nat.succ_pos j)
    rw [fillLoop, dif_neg (by omega : ¬ remaining = 0)]
    simp only [if_pos hC, h0, ne_eq, not_true_eq_false, if_false,
      if_neg (by simp : ¬ ((0 : Int) ≠ 0))]
    rw [ih (remaining - CHUNK_SIZE) (acc + CHUNK_SIZE) (idx + 1)
      (by simp only [CHUNK_SIZE] at hrem ⊢; omega)
      (fun i hi => by
        have h := hpre (i + 1) (by omega)
        have harg : idx + (i + 1) = idx + 1 + i := by omega
        rwa [harg] at h)
      (by
        have harg : idx + 1 + j = idx + (j + 1) := by omega
        rw [harg]; exact herr)]
    have harg : idx + 1 + j = idx + (j + 1) := by omega
    have hsub : remaining - CHUNK_SIZE - j * CHUNK_SIZE =
        remaining - (j + 1) * CHUNK_SIZE := by
      simp only [CHUNK_SIZE] at *
      omega
    have hrep : List.replicate (j + 1) CHUNK_SIZE =
        CHUNK_SIZE :: List.replicate j CHUNK_SIZE := rfl
    simp only [harg, hsub, hrep, cumFrom, List.cons_append]
    have htr : acc + CHUNK_SIZE + j * CHUNK_SIZE = acc + (j + 1) * CHUNK_SIZE := by
      simp only [CHUNK_SIZE]
      omega
    rw [htr]

/-- C4: for every fill call in which the transport first fails on chunk
request k (all prior chunks full-sized), the fill issues no further chunk
requests (exactly k requests in all), the reported bytesTransferred
equals (k-1) * chunkSize, and the error is classified by the transport's
return code as Overflow (-2), Timeout (-3), Break (-4), Framing (-5),
Parity (-6), or Unknown otherwise. -/
theorem fill_error_abort (transport : Nat → Int) (N k : Nat)
    (hk : 0 < k) (hN : (k - 1) * CHUNK_SIZE < N)
    (hpre : ∀ i, i < k - 1 → transport i = 0)
    (herr : transport (k - 1) ≠ 0) :
    (fill transport N).requests.length = k ∧
    (fill transport N).totalRead = (k - 1) * CHUNK_SIZE ∧
    (fill transport N).error =
      some (transport (k - 1), classifyUartError (transport (k - 1))) ∧
    classifyUartError (-2) = UartErrorKind.Overflow ∧
    classifyUartError (-3) = UartErrorKind.Timeout ∧
    classifyUartError (-4) = UartErrorKind.BreakErr ∧
    classifyUartError (-5) = UartErrorKind.Framing ∧
    classifyUartError (-6) = UartErrorKind.Parity ∧
    (∀ r : Int, r ≠ -2 → r ≠ -3 → r ≠ -4 → r ≠ -5 → r ≠ -6 →
      classifyUartError r = UartErrorKind.Unknown) := by
  have h := fillLoop_err transport (k - 1) N 0 0 hN
    (fun i hi => by simpa using hpre i hi) (by simpa using herr)
  unfold fill fillFrom
  rw [h]
  refine ⟨?_, by simp, by simp, by decide, by decide, by decide, by decide,
    by decide, ?_⟩
  · simp only [List.length_append, List.length_replicate, List.length_cons,
      List.length_nil]
    omega
  · intro r h2 h3 h4 h5 h6
    simp [classifyUartError, h2, h3, h4, h5, h6]

/-- Witness for C4: a Timeout (-3) on the second chunk of
fill(buf, 8192). -/
theorem fill_error_abort_witness :
    (fill (fun i => if i = 0 then 0 else -3) 8192).requests.length = 2 ∧
    (fill (fun i => if i = 0 then 0 else -3) 8192).totalRead = 4096 ∧
    (fill (fun i => if i = 0 then 0 else -3) 8192).error =
      some (-3, UartErrorKind.Timeout) := by
  have h := fill_error_abort (fun i => if i = 0 then 0 else -3) 8192 2
    (by norm_num) (by norm_num [CHUNK_SIZE])
    (fun i hi => by
      have hi0 : i = 0 := by omega
      subst hi0
      rfl)
    (by norm_num)
  refine ⟨h.1, ?_, ?_⟩
  · rw [h.2.1]
    norm_num [CHUNK_SIZE]
  · rw [h.2.2.1]
    norm_num [classifyUartError]

lemma fillLoop_mono (transport : Nat → Int) :
    ∀ remaining acc idx,
      acc ≤ (fillLoop transport remaining acc idx).totalRead ∧
      (fillLoop transport remaining acc idx).totalRead ≤ acc + remaining ∧
      List.Chain' (fun a b => a ≤ b)
        (acc :: (fillLoop transport remaining acc idx).progress) ∧
      (∀ x ∈ (fillLoop transport remaining acc idx).progress,
        x ≤ acc + remaining) := by
  intro remaining
  induction remaining using Nat.strong_induction_on with
  | _ remaining ih =>
    intro acc idx
    rw [fillLoop]
    by_cases h0 : remaining = 0
    · simp [h0]
    · rw [dif_neg h0]
      have h4096 : CHUNK_SIZE = 4096 := rfl
      have hcb : 0 < (if remaining > CHUNK_SIZE then CHUNK_SIZE else remaining) ∧
          (if remaining > CHUNK_SIZE then CHUNK_SIZE else remaining) ≤ remaining := by
        constructor <;> split <;> omega
      by_cases hr : transport idx = 0
      · simp only [hr, ne_eq, not_true_eq_false, if_false,
          if_neg (by simp : ¬ ((0 : Int) ≠ 0))]
        obtain ⟨ih1, ih2, ih3, ih4⟩ :=
          ih (remaining - (if remaining > CHUNK_SIZE then CHUNK_SIZE else remaining))
            (by omega)
            (acc + (if remaining > CHUNK_SIZE then CHUNK_SIZE else remaining))
            (idx + 1)
        refine ⟨by omega, by omega, ?_, ?_⟩
        · rw [List.chain'_cons]
          exact ⟨by omega, by simpa using ih3⟩
        · intro x hx
          simp only [List.mem_cons] at hx
          rcases hx with hx | hx
          · omega
          · have := ih4 x hx
            omega
      · simp only [if_pos hr]
        refine ⟨le_refl acc, by omega, ?_, by simp⟩
        simp [List.chain'_singleton]

lemma fillLoop_end_conditions (transport : Nat → Int) :
    ∀ remaining acc idx,
      ((fillLoop transport remaining acc idx).error = none ↔
        (fillLoop transport remaining acc idx).totalRead = acc + remaining) ∧
      (∀ e kind,
        (fillLoop transport remaining acc idx).error = some (e, kind) →
        1 ≤ (fillLoop transport remaining acc idx).requests.length ∧
        e = transport
          (idx + ((fillLoop transport remaining acc idx).requests.length - 1)) ∧
        e ≠ 0 ∧ kind = classifyUartError e ∧
        ∀ i, i < (fillLoop transport remaining acc idx).requests.length - 1 →
          transport (idx + i) = 0) := by
  intro remaining
  induction remaining using Nat.strong_induction_on with
  | _ remaining ih =>
    intro acc idx
    rw [fillLoop]
    by_cases h0 : remaining = 0
    · simp [h0]
    · rw [dif_neg h0]
      have h4096 : CHUNK_SIZE = 4096 := rfl
      have hcb : 0 < (if remaining > CHUNK_SIZE then CHUNK_SIZE else remaining) ∧
          (if remaining > CHUNK_SIZE then CHUNK_SIZE else remaining) ≤ remaining := by
        constructor <;> split <;> omega
      by_cases hr : transport idx = 0
      · simp only [hr, ne_eq, not_true_eq_false, if_false,
          if_neg (by simp : ¬ ((0 : Int) ≠ 0))]
        obtain ⟨ih1, ih2⟩ :=
          ih (remaining - (if remaining > CHUNK_SIZE then CHUNK_SIZE else remaining))
            (by omega)
            (acc + (if remaining > CHUNK_SIZE then CHUNK_SIZE else remaining))
            (idx + 1)
        constructor
        · rw [ih1]
          constructor <;> (intro h; omega)
        · intro e kind herr
          obtain ⟨j1, j2, j3, j4, j5⟩ := ih2 e kind herr
          refine ⟨by simp, ?_, j3, j4, ?_⟩
          · simp only [List.length_cons]
            have harg : idx + 1 + ((fillLoop transport
                (remaining - (if remaining > CHUNK_SIZE then CHUNK_SIZE else remaining))
                (acc + (if remaining > CHUNK_SIZE then CHUNK_SIZE else remaining))
                (idx + 1)).requests.length - 1) =
              idx + ((fillLoop transport
                (remaining - (if remaining > CHUNK_SIZE then CHUNK_SIZE else remaining))
                (acc + (if remaining > CHUNK_SIZE then CHUNK_SIZE else remaining))
                (idx + 1)).requests.length + 1 - 1) := by omega
            rw [← harg]
            exact j2
          · intro i hi
            simp only [List.length_cons] at hi
            rcases Nat.eq_zero_or_pos i with hi0 | hipos
            · subst hi0
              simpa using hr
            · have h := j5 (i - 1) (by omega)
              have harg : idx + 1 + (i - 1) = idx + i := by omega
              rwa [harg] at h
      · simp only [if_pos hr]
        constructor
        · simp
          omega
        · intro e kind herr
          simp only [Option.some.injEq, Prod.mk.injEq] at herr
          obtain ⟨he, hk⟩ := herr
          subst he
          subst hk
          refine ⟨by simp, by simp, hr, rfl, ?_⟩
          intro i hi
          simp at hi

/-- C9: every fill call terminates (the chunk loop is a total function of
its inputs, defined by well-founded recursion on the remaining byte
count); the transferred byte count is monotonically non-decreasing along
the printed progress trail and never exceeds the requested total; and the
loop ends exactly when the transferred count equals the total (success,
no error) or at the first chunk-level transport error (abort: the request
that errored is the last one issued, every earlier request succeeded, and
the partial count is reported). -/
theorem fill_terminates_monotone (transport : Nat → Int) (N : Nat) :
    (fill transport N).totalRead ≤ N ∧
    List.Chain' (fun a b => a ≤ b) (0 :: (fill transport N).progress) ∧
    (∀ x ∈ (fill transport N).progress, x ≤ N) ∧
    ((fill transport N).error = none ↔ (fill transport N).totalRead = N) ∧
    (∀ e kind, (fill transport N).error = some (e, kind) →
      1 ≤ (fill transport N).requests.length ∧
      e = transport ((fill transport N).requests.length - 1) ∧ e ≠ 0 ∧
      kind = classifyUartError e ∧
      ∀ i, i < (fill transport N).requests.length - 1 → transport i = 0) := by
  obtain ⟨m1, m2, m3, m4⟩ := fillLoop_mono transport N 0 0
  obtain ⟨e1, e2⟩ := fillLoop_end_conditions transport N 0 0
  unfold fill fillFrom
  refine ⟨by simpa using m2, m3, by simpa using m4, by simpa using e1, ?_⟩
  intro e kind herr
  obtain ⟨j1, j2, j3, j4, j5⟩ := e2 e kind herr
  exact ⟨j1, by simpa using j2, j3, j4, fun i hi => by simpa using j5 i hi⟩

/-- Witness for C9 at a concrete error-free transport and N = 5. -/
theorem fill_terminates_monotone_witness :
    (fill (fun _ => 0) 5).totalRead ≤ 5 :=
  (fill_terminates_monotone (fun _ => 0) 5).1

/-- The characters `WaitForInputChoice` accepts (MainLoop.cc lines 73-76). -/
def isChoiceChar (c : Char) : Bool :=
  c == 'y' || c == 'Y' || c == 'n' || c == 'N'

/-- Whether an accepted character selects the "yes" branch (line 73). -/
def yesChar (c : Char) : Bool :=
  c == 'y' || c == 'Y'

lemma waitChoiceAux :
    ∀ (stream : List Char) (i : Nat) (hi : i < stream.length),
    (∀ j, (hj : j < i) →
      isChoiceChar (stream.get ⟨j, Nat.lt_trans hj hi⟩) = false) →
    isChoiceChar (stream.get ⟨i, hi⟩) = true →
    WaitForInputChoice stream = some (yesChar (stream.get ⟨i, hi⟩), i + 1) := by
  intro stream
  induction stream with
  | nil =>
    intro i hi
    exact absurd hi (by simp)
  | cons c rest ih =>
    intro i hi hbefore hvalid
    cases i with
    | zero =>
      simp only [List.get] at hvalid ⊢
      rw [WaitForInputChoice]
      by_cases hy : c = 'y' ∨ c = 'Y'
      · rw [if_pos hy]
        rcases hy with hy | hy <;> subst hy <;> rfl
      · have hn : c = 'n' ∨ c = 'N' := by
          simp only [isChoiceChar, Bool.or_eq_true, beq_iff_eq] at hvalid
          tauto
        rw [if_neg hy, if_pos hn]
        rcases hn with hn | hn <;> subst hn <;> rfl
    | succ i' =>
      have hc : isChoiceChar c = false := by
        simpa using hbefore 0 (Nat.succ_pos i')
      simp only [isChoiceChar, Bool.or_eq_false_iff, beq_eq_false_iff_ne,
        ne_eq] at hc
      rw [WaitForInputChoice]
      rw [if_neg (by tauto), if_neg (by tauto)]
      have hi' : i' < rest.length := by
        simpa using hi
      rw [ih i' hi'
        (fun j hj => by simpa using hbefore (j + 1) (by omega))
        (by simpa using hvalid)]
      simp only [List.get]

/-- C5: for every input character stream, the wait-for-choice operation
discards every character that is not one of y/Y/n/N and returns yes or no
upon consuming the first character that is (yes exactly for y/Y); given
the stream 'x', 'q', 'n' it returns "no" only after consuming all three
characters. -/
theorem wait_for_choice_first_valid (stream : List Char) (i : Nat)
    (hi : i < stream.length)
    (hbefore : ∀ j, (hj : j < i) →
      isChoiceChar (stream.get ⟨j, Nat.lt_trans hj hi⟩) = false)
    (hvalid : isChoiceChar (stream.get ⟨i, hi⟩) = true) :
    WaitForInputChoice stream = some (yesChar (stream.get ⟨i, hi⟩), i + 1) ∧
    WaitForInputChoice ['x', 'q', 'n'] = some (false, 3) :=
  ⟨waitChoiceAux stream i hi hbefore hvalid, by decide⟩

/-- Witness for C5: the stream 'x', 'q', 'n' with the first valid
character at index 2. -/
theorem wait_for_choice_first_valid_witness :
    WaitForInputChoice ['x', 'q', 'n'] = some (false, 3) := by
  have h := wait_for_choice_first_valid ['x', 'q', 'n'] 2 (by decide)
    (fun j hj => by interval_cases j <;> rfl) (by decide)
  simpa using h.1

lemma init_pin_output_flags (driver : GpioDriver) (pin : Nat) (s : TimingState) :
    (init_pin_output driver pin s).2.initialized = s.initialized ∧
    (init_pin_output driver pin s).2.special_initialized =
      s.special_initialized := by
  unfold init_pin_output
  by_cases h1 : driver.InitializeRet pin = ARM_DRIVER_OK <;>
    by_cases h2 : driver.PowerControlRet pin = ARM_DRIVER_OK <;>
      by_cases h3 : driver.SetDirectionRet pin = ARM_DRIVER_OK <;>
        simp [h1, h2, h3, setPin]

lemma init_pin_output_ok_iff (driver : GpioDriver) (pin : Nat) (s : TimingState) :
    (init_pin_output driver pin s).1 = ARM_DRIVER_OK ↔
      (driver.InitializeRet pin = ARM_DRIVER_OK ∧
       driver.PowerControlRet pin = ARM_DRIVER_OK ∧
       driver.SetDirectionRet pin = ARM_DRIVER_OK ∧
       driver.SetValueRet pin = ARM_DRIVER_OK) := by
  unfold init_pin_output
  by_cases h1 : driver.InitializeRet pin = ARM_DRIVER_OK <;>
    by_cases h2 : driver.PowerControlRet pin = ARM_DRIVER_OK <;>
      by_cases h3 : driver.SetDirectionRet pin = ARM_DRIVER_OK <;>
        simp [h1, h2, h3]

lemma runTimingOp_uninit (op : TimingOp) (s : TimingState)
    (hs : s.initialized = false) : runTimingOp op s = (s, []) := by
  cases op <;>
    simp [runTimingOp, inference_timing_pre_start, inference_timing_pre_end,
      inference_timing_post_start, inference_timing_post_end, hs]

lemma runTimingOps_uninit (ops : List TimingOp) (s : TimingState)
    (hs : s.initialized = false) : runTimingOps ops s = (s, []) := by
  induction ops with
  | nil => rfl
  | cons op ops ih =>
    rw [runTimingOps, runTimingOp_uninit op s hs, ih]
    simp

/-- C1: for every initialization sequence in which any underlying
configure/power/direction/set-value driver step fails,
inference_timing_init returns a negative code, the initialized flag
remains false, and every subsequent sequence of
pre_start/pre_end/post_start/post_end calls is a no-op: it emits no
hardware or console event and changes no line's state (the module state,
pin levels included, is returned unchanged). -/
theorem timing_init_failure_safe (driver : GpioDriver) (s : TimingState)
    (hs : s.initialized = false)
    (hfail : ¬ (driver.InitializeRet PRE_INFERENCE_GPIO_PIN = ARM_DRIVER_OK ∧
                driver.PowerControlRet PRE_INFERENCE_GPIO_PIN = ARM_DRIVER_OK ∧
                driver.SetDirectionRet PRE_INFERENCE_GPIO_PIN = ARM_DRIVER_OK ∧
                driver.SetValueRet PRE_INFERENCE_GPIO_PIN = ARM_DRIVER_OK ∧
                driver.InitializeRet POST_INFERENCE_GPIO_PIN = ARM_DRIVER_OK ∧
                driver.PowerControlRet POST_INFERENCE_GPIO_PIN = ARM_DRIVER_OK ∧
                driver.SetDirectionRet POST_INFERENCE_GPIO_PIN = ARM_DRIVER_OK ∧
                driver.SetValueRet POST_INFERENCE_GPIO_PIN = ARM_DRIVER_OK)) :
    (inference_timing_init driver s).1 < 0 ∧
    (inference_timing_init driver s).2.initialized = false ∧
    ∀ ops : List TimingOp,
      runTimingOps ops (inference_timing_init driver s).2 =
        ((inference_timing_init driver s).2, []) := by
  have hpreflags := init_pin_output_flags driver PRE_INFERENCE_GPIO_PIN s
  unfold inference_timing_init
  by_cases h0 : (init_pin_output driver PRE_INFERENCE_GPIO_PIN s).1 = ARM_DRIVER_OK
  · have hpostflags := init_pin_output_flags driver POST_INFERENCE_GPIO_PIN
      (init_pin_output driver PRE_INFERENCE_GPIO_PIN s).2
    by_cases h1 : (init_pin_output driver POST_INFERENCE_GPIO_PIN
        (init_pin_output driver PRE_INFERENCE_GPIO_PIN s).2).1 = ARM_DRIVER_OK
    · obtain ⟨a1, a2, a3, a4⟩ :=
        (init_pin_output_ok_iff driver PRE_INFERENCE_GPIO_PIN s).mp h0
      obtain ⟨b1, b2, b3, b4⟩ :=
        (init_pin_output_ok_iff driver POST_INFERENCE_GPIO_PIN _).mp h1
      exact absurd ⟨a1, a2, a3, a4, b1, b2, b3, b4⟩ hfail
    · simp only [h0, ne_eq, not_true_eq_false, if_false, h1,
        not_false_eq_true, if_true]
      have hflag : (init_pin_output driver POST_INFERENCE_GPIO_PIN
          (init_pin_output driver PRE_INFERENCE_GPIO_PIN s).2).2.initialized =
          false := by
        rw [hpostflags.1, hpreflags.1, hs]
      exact ⟨by norm_num, hflag, fun ops => runTimingOps_uninit ops _ hflag⟩
  · simp only [h0, ne_eq, not_false_eq_true, if_true]
    have hflag : (init_pin_output driver PRE_INFERENCE_GPIO_PIN s).2.initialized =
        false := by
      rw [hpreflags.1, hs]
    exact ⟨by norm_num, hflag, fun ops => runTimingOps_uninit ops _ hflag⟩

/-- The boot state of the timing module: both `static bool` flags false
(inference_timing.c lines 53-54), all modelled pin levels Low. -/
def initialTimingState : TimingState :=
  { initialized := false, special_initialized := false,
    pinLevel := fun _ => false }

/-- A concrete driver oracle for witnesses: PowerControl fails (code -7)
on pin 1, all other driver steps succeed. -/
def failingDriver : GpioDriver :=
  { InitializeRet := fun _ => 0,
    PowerControlRet := fun p => if p = 1 then -7 else 0,
    SetDirectionRet := fun _ => 0,
    SetValueRet := fun _ => 0 }

/-- Witness for C1: a driver whose PowerControl step fails on the
post-inference pin. -/
theorem timing_init_failure_safe_witness :
    (inference_timing_init failingDriver initialTimingState).1 < 0 ∧
    (inference_timing_init failingDriver initialTimingState).2.initialized =
      false ∧
    runTimingOps [TimingOp.preStart, TimingOp.preEnd, TimingOp.postStart,
        TimingOp.postEnd]
      (inference_timing_init failingDriver initialTimingState).2 =
      ((inference_timing_init failingDriver initialTimingState).2, []) := by
  have h := timing_init_failure_safe failingDriver initialTimingState rfl
    (by decide)
  exact ⟨h.1, h.2.1, h.2.2 _⟩

lemma cycle_routine_events (s : TimingState) (h : s.special_initialized = true) :
    (inference_timing_cycle_routine s).2 =
      [TEvent.logSettingHigh 0, TEvent.setValue 0 true, TEvent.waitMsec 1000,
       TEvent.setValue 0 false,
       TEvent.logSettingHigh 1, TEvent.setValue 1 true, TEvent.waitMsec 1000,
       TEvent.setValue 1 false,
       TEvent.logSettingHigh 2, TEvent.setValue 2 true, TEvent.waitMsec 1000,
       TEvent.setValue 2 false,
       TEvent.logSettingHigh 4, TEvent.setValue 4 true, TEvent.waitMsec 1000,
       TEvent.setValue 4 false,
       TEvent.setValue 0 false, TEvent.setValue 1 false, TEvent.setValue 2 false,
       TEvent.setValue 4 false] := by
  simp [inference_timing_cycle_routine, h, cyclePins, sweepLow, specialPins,
    SPECIAL_PIN_0, SPECIAL_PIN_1, SPECIAL_PIN_2, SPECIAL_PIN_4]

lemma cycle_routine_state (s : TimingState) (h : s.special_initialized = true) :
    (inference_timing_cycle_routine s).1.initialized = s.initialized ∧
    (inference_timing_cycle_routine s).1.special_initialized = true ∧
    (inference_timing_cycle_routine s).1.pinLevel 0 = false ∧
    (inference_timing_cycle_routine s).1.pinLevel 1 = false ∧
    (inference_timing_cycle_routine s).1.pinLevel 2 = false ∧
    (inference_timing_cycle_routine s).1.pinLevel 4 = false ∧
    (∀ q, q ≠ 0 → q ≠ 1 → q ≠ 2 → q ≠ 4 →
      (inference_timing_cycle_routine s).1.pinLevel q = s.pinLevel q) := by
  refine ⟨?_, ?_, ?_, ?_, ?_, ?_, ?_⟩ <;>
    [skip; skip; skip; skip; skip; skip; intro q h0 h1 h2 h4] <;>
    simp [inference_timing_cycle_routine, h, cyclePins, sweepLow, specialPins,
      setPin, SPECIAL_PIN_0, SPECIAL_PIN_1, SPECIAL_PIN_2, SPECIAL_PIN_4, *]

/-- C7: if diagnosticCycle is invoked without a prior successful
diagnostic-initialize, it reports "not initialized" and changes no line
state and performs no 1-second wait; otherwise it visits the four
diagnostic lines in the fixed order pin 0, 1, 2, 4, for each asserting
it, holding 1 second, then deasserting it, and after all four it
deasserts all four lines unconditionally (every modelled pin ends Low,
other pins are untouched). -/
theorem diagnostic_cycle_behavior (s : TimingState) :
    (s.special_initialized = false →
      inference_timing_cycle_routine s = (s, [TEvent.logNotInitialized])) ∧
    (s.special_initialized = true →
      (inference_timing_cycle_routine s).2 =
        [TEvent.logSettingHigh 0, TEvent.setValue 0 true, TEvent.waitMsec 1000,
         TEvent.setValue 0 false,
         TEvent.logSettingHigh 1, TEvent.setValue 1 true, TEvent.waitMsec 1000,
         TEvent.setValue 1 false,
         TEvent.logSettingHigh 2, TEvent.setValue 2 true, TEvent.waitMsec 1000,
         TEvent.setValue 2 false,
         TEvent.logSettingHigh 4, TEvent.setValue 4 true, TEvent.waitMsec 1000,
         TEvent.setValue 4 false,
         TEvent.setValue 0 false, TEvent.setValue 1 false,
         TEvent.setValue 2 false, TEvent.setValue 4 false] ∧
      (inference_timing_cycle_routine s).1.pinLevel SPECIAL_PIN_0 = false ∧
      (inference_timing_cycle_routine s).1.pinLevel SPECIAL_PIN_1 = false ∧
      (inference_timing_cycle_routine s).1.pinLevel SPECIAL_PIN_2 = false ∧
      (inference_timing_cycle_routine s).1.pinLevel SPECIAL_PIN_4 = false ∧
      (∀ q, q ∉ specialPins →
        (inference_timing_cycle_routine s).1.pinLevel q = s.pinLevel q) ∧
      (inference_timing_cycle_routine s).1.initialized = s.initialized ∧
      (inference_timing_cycle_routine s).1.special_initialized = true) := by
  constructor
  · intro h
    simp [inference_timing_cycle_routine, h]
  · intro h
    obtain ⟨f1, f2, f3, f4, f5, f6, f7⟩ := cycle_routine_state s h
    refine ⟨cycle_routine_events s h, f3, f4, f5, f6, ?_, f1, f2⟩
    intro q hq
    simp only [specialPins, SPECIAL_PIN_0, SPECIAL_PIN_1, SPECIAL_PIN_2,
      SPECIAL_PIN_4, List.mem_cons, List.mem_singleton, not_or] at hq
    exact f7 q hq.1 hq.2.1 hq.2.2.1 hq.2.2.2.1

/-- A module state in which the diagnostic-initialize step has succeeded
(`special_initialized` set), used by witnesses. -/
def specialReadyState : TimingState :=
  { initialized := false, special_initialized := true,
    pinLevel := fun _ => false }

/-- Witness for C7: the uninitialized boot state only logs the warning;
the ready state runs the full cycle and leaves pin 4 Low. -/
theorem diagnostic_cycle_behavior_witness :
    inference_timing_cycle_routine initialTimingState =
      (initialTimingState, [TEvent.logNotInitialized]) ∧
    (inference_timing_cycle_routine specialReadyState).1.pinLevel 4 = false := by
  refine ⟨(diagnostic_cycle_behavior initialTimingState).1 rfl, ?_⟩
  have h := (diagnostic_cycle_behavior specialReadyState).2 rfl
  exact h.2.2.2.2.1

/-- C10: the first two diagnostic lines are the same physical lines as
the pre- and post-inference signal lines (port 0, pins 0 and 1), so every
diagnostic cycle after a successful diagnostic-initialize drives the
pre-inference and the post-inference line each High and back Low during
the cycle: the routine does not leave the timing-signal lines' states
untouched while it runs. -/
theorem diagnostic_cycle_drives_timing_lines (s : TimingState)
    (h : s.special_initialized = true) :
    PRE_INFERENCE_GPIO_PIN = SPECIAL_PIN_0 ∧
    POST_INFERENCE_GPIO_PIN = SPECIAL_PIN_1 ∧
    List.Sublist [TEvent.setValue PRE_INFERENCE_GPIO_PIN true,
                  TEvent.setValue PRE_INFERENCE_GPIO_PIN false]
      (inference_timing_cycle_routine s).2 ∧
    List.Sublist [TEvent.setValue POST_INFERENCE_GPIO_PIN true,
                  TEvent.setValue POST_INFERENCE_GPIO_PIN false]
      (inference_timing_cycle_routine s).2 := by
  refine ⟨rfl, rfl, ?_, ?_⟩ <;> rw [cycle_routine_events s h] <;> decide

/-- Witness for C10 at the concrete ready state. -/
theorem diagnostic_cycle_drives_timing_lines_witness :
    List.Sublist [TEvent.setValue PRE_INFERENCE_GPIO_PIN true,
                  TEvent.setValue PRE_INFERENCE_GPIO_PIN false]
      (inference_timing_cycle_routine specialReadyState).2 :=
  (diagnostic_cycle_drives_timing_lines specialReadyState rfl).2.2.1

/-- C6: in every iteration of the control loop, after the inference entry
point returns, the post-inference signal is asserted, held 50 ms, and
deasserted — regardless of whether the inference result was success or
failure — before the result is reported: the iteration's trace ends with
exactly [inference-return, post-assert, wait 50 ms, post-deassert,
report], with no inference-return, post-signal or report event earlier. -/
theorem post_signal_unconditional (load ok : Bool) :
    ∃ pre : List LoopEvent,
      mainLoopIteration load ok =
        pre ++ [LoopEvent.runInference ok, LoopEvent.postStartCall,
                LoopEvent.waitMsec 50, LoopEvent.postEndCall,
                if ok then LoopEvent.reportSuccess
                else LoopEvent.reportFailure] ∧
      LoopEvent.runInference ok ∉ pre ∧
      LoopEvent.postStartCall ∉ pre ∧ LoopEvent.postEndCall ∉ pre ∧
      LoopEvent.reportSuccess ∉ pre ∧ LoopEvent.reportFailure ∉ pre := by
  refine ⟨(if load then [LoopEvent.loadFromUart]
    else [LoopEvent.useDefaultInput]) ++
    [LoopEvent.preStartCall, LoopEvent.waitMsec 50, LoopEvent.preEndCall],
    ?_, ?_, ?_, ?_, ?_, ?_⟩ <;>
    cases load <;> cases ok <;> decide

lemma load_err_aux (transport : Nat → Int) :
    ∀ (tensors : List TensorInfo) (idx reqBase : Nat) (i : Nat) (c : Int)
      (kind : UartErrorKind) (r t : Nat),
      LoadEvent.uartError i c kind r t ∈
        loadTensors transport tensors idx reqBase →
      idx ≤ i ∧ c ≠ 0 ∧ kind = classifyUartError c ∧
      (∃ pre, loadTensors transport tensors idx reqBase =
        pre ++ [LoadEvent.uartError i c kind r t]) ∧
      LoadEvent.allLoaded ∉ loadTensors transport tensors idx reqBase ∧
      (∀ j, LoadEvent.tensorLoaded j ∈
        loadTensors transport tensors idx reqBase → j < i) ∧
      (∀ j, LoadEvent.invalidTensor j ∈
        loadTensors transport tensors idx reqBase → j < i) := by
  intro tensors
  induction tensors with
  | nil =>
    intro idx reqBase i c kind r t hmem
    simp [loadTensors] at hmem
  | cons tNext rest ih =>
    intro idx reqBase i c kind r t hmem
    rw [loadTensors] at hmem ⊢
    by_cases hskip : ¬ tNext.available ∨ tNext.bytes = 0
    · rw [if_pos hskip] at hmem ⊢
      have hm : LoadEvent.uartError i c kind r t ∈
          loadTensors transport rest (idx + 1) reqBase := by
        rcases List.mem_cons.mp hmem with h | h
        · exact absurd h (by simp)
        · exact h
      obtain ⟨g1, g2, g3, ⟨pre, hpre⟩, g5, g6, g7⟩ :=
        ih (idx + 1) reqBase i c kind r t hm
      refine ⟨by omega, g2, g3,
        ⟨LoadEvent.invalidTensor idx :: pre, by rw [hpre, List.cons_append]⟩,
        ?_, ?_, ?_⟩
      · intro hmem2
        rcases List.mem_cons.mp hmem2 with h | h
        · exact absurd h (by simp)
        · exact g5 h
      · intro j hj
        rcases List.mem_cons.mp hj with h | h
        · exact absurd h (by simp)
        · exact g6 j h
      · intro j hj
        rcases List.mem_cons.mp hj with h | h
        · have : j = idx := by simpa using h
          omega
        · exact g7 j h
    · rw [if_neg hskip] at hmem ⊢
      rcases hF : (fillFrom transport reqBase tNext.bytes).error with _ | p
      · simp only [hF] at hmem ⊢
        have hm : LoadEvent.uartError i c kind r t ∈
            loadTensors transport rest (idx + 1)
              (reqBase + (fillFrom transport reqBase tNext.bytes).requests.length) := by
          rcases List.mem_cons.mp hmem with h | h
          · exact absurd h (by simp)
          · exact h
        obtain ⟨g1, g2, g3, ⟨pre, hpre⟩, g5, g6, g7⟩ :=
          ih (idx + 1) _ i c kind r t hm
        refine ⟨by omega, g2, g3,
          ⟨LoadEvent.tensorLoaded idx :: pre, by rw [hpre, List.cons_append]⟩,
          ?_, ?_, ?_⟩
        · intro hmem2
          rcases List.mem_cons.mp hmem2 with h | h
          · exact absurd h (by simp)
          · exact g5 h
        · intro j hj
          rcases List.mem_cons.mp hj with h | h
          · have : j = idx := by simpa using h
            omega
          · exact g6 j h
        · intro j hj
          rcases List.mem_cons.mp hj with h | h
          · exact absurd h (by simp)
          · exact g7 j h
      · obtain ⟨ec, ek⟩ := p
        simp only [hF, List.mem_singleton, LoadEvent.uartError.injEq] at hmem
        obtain ⟨hi, hc, hk, hr, ht⟩ := hmem
        have hends := (fillLoop_end_conditions transport tNext.bytes 0 reqBase).2
        obtain ⟨_, _, he0, hck, _⟩ := hends ec ek (by simpa [fillFrom] using hF)
        simp only [hF]
        refine ⟨by omega, by rw [hc]; exact he0, by rw [hk, hc]; exact hck,
          ⟨[], by rw [hi, hc, hk, hr, ht]; simp⟩, by simp, by simp, by simp⟩

/-- C2 (amended): for every multi-tensor load in which a transport error
occurs during some tensor's fill, the load classifies the error by the
transport return code, reports it with the received-byte context, and
returns from the whole multi-tensor load on first error, skipping all
remaining tensors (the error report is the final event; no "all loaded"
banner and no event of any later tensor follows); the load function
itself is void, so no overall failure value is returned to its caller. -/
theorem load_aborts_on_first_error (transport : Nat → Int)
    (tensors : List TensorInfo) (i : Nat) (c : Int) (kind : UartErrorKind)
    (r t : Nat)
    (hmem : LoadEvent.uartError i c kind r t ∈
      LoadInputFromUART transport tensors) :
    c ≠ 0 ∧ kind = classifyUartError c ∧
    (∃ pre, LoadInputFromUART transport tensors =
      pre ++ [LoadEvent.uartError i c kind r t]) ∧
    LoadEvent.allLoaded ∉ LoadInputFromUART transport tensors ∧
    (∀ j, LoadEvent.tensorLoaded j ∈ LoadInputFromUART transport tensors →
      j < i) ∧
    (∀ j, LoadEvent.invalidTensor j ∈ LoadInputFromUART transport tensors →
      j < i) ∧
    LoadInputFromUARTReturn transport tensors = () := by
  obtain ⟨g1, g2, g3, g4, g5, g6, g7⟩ :=
    load_err_aux transport tensors 0 0 i c kind r t hmem
  exact ⟨g2, g3, g4, g5, g6, g7, rfl⟩

/-- Witness for C2: a Timeout on the first tensor of a two-tensor load
skips the second tensor and the final banner. -/
theorem load_aborts_on_first_error_witness :
    LoadEvent.allLoaded ∉
      LoadInputFromUART (fun _ => -3) [⟨true, 10⟩, ⟨true, 20⟩] := by
  have h := load_aborts_on_first_error (fun _ => -3) [⟨true, 10⟩, ⟨true, 20⟩]
    0 (-3) UartErrorKind.Timeout 0 10
    (by simp [LoadInputFromUART, loadTensors, fillFrom, fillLoop, CHUNK_SIZE,
      classifyUartError])
  exact h.2.2.2.1

/-- Counterexample for C2 as stated: the load does not return an overall
failure to the caller of the load — the C function is void, so the caller
receives the same value from a failing load (whose trace observed a
classified transport error) as from a fully successful one. -/
theorem load_returns_no_failure_counterexample :
    (∃ i c kind r t, LoadEvent.uartError i c kind r t ∈
      LoadInputFromUART (fun _ => -4) [⟨true, 100⟩]) ∧
    LoadEvent.allLoaded ∈ LoadInputFromUART (fun _ => 0) [⟨true, 100⟩] ∧
    LoadInputFromUARTReturn (fun _ => -4) [⟨true, 100⟩] =
      LoadInputFromUARTReturn (fun _ => 0) [⟨true, 100⟩] := by
  refine ⟨⟨0, -4, UartErrorKind.BreakErr, 0, 100, ?_⟩, ?_, rfl⟩
  · simp [LoadInputFromUART, loadTensors, fillFrom, fillLoop, CHUNK_SIZE,
      classifyUartError]
  · simp [LoadInputFromUART, loadTensors, fillFrom, fillLoop, CHUNK_SIZE]

/-- C8: a tensor whose handle is unavailable or whose byte length is zero
is skipped with a reported error, and loading continues with the next
tensor index rather than aborting the overall load; concretely, a load
over an unavailable tensor, a zero-length tensor and a valid 5-byte
tensor reports both invalid tensors and still loads the third. -/
theorem invalid_tensor_skipped (transport : Nat → Int) (tNext : TensorInfo)
    (rest : List TensorInfo) (idx reqBase : Nat)
    (h : tNext.available = false ∨ tNext.bytes = 0) :
    loadTensors transport (tNext :: rest) idx reqBase =
      LoadEvent.invalidTensor idx ::
        loadTensors transport rest (idx + 1) reqBase ∧
    LoadInputFromUART (fun _ => 0) [⟨false, 10⟩, ⟨true, 0⟩, ⟨true, 5⟩] =
      [LoadEvent.invalidTensor 0, LoadEvent.invalidTensor 1,
       LoadEvent.tensorLoaded 2, LoadEvent.allLoaded] := by
  constructor
  · rw [loadTensors]
    rw [if_pos ?_]
    rcases h with h | h <;> simp [h]
  · simp [LoadInputFromUART, loadTensors, fillFrom, fillLoop, CHUNK_SIZE]

/-- Witness for C8: a zero-length tensor at index 0 is skipped and the
load continues at index 1. -/
theorem invalid_tensor_skipped_witness :
    loadTensors (fun _ => 0) [⟨true, 0⟩, ⟨true, 5⟩] 0 0 =
      LoadEvent.invalidTensor 0 :: loadTensors (fun _ => 0) [⟨true, 5⟩] 1 0 :=
  (invalid_tensor_skipped (fun _ => 0) ⟨true, 0⟩ [⟨true, 5⟩] 0 0 (Or.inr rfl)).1

end AlifKit
